import Mathlib

/-!
A shallow embedding of src/main.py, a PyQt5 GUI that batch-converts MP4
container files to MOV by invoking ffmpeg once per input file.

The embedding covers the behavioural core of the program:

* DropArea.dropEvent (src/main.py lines 62-74): intake of dropped files and
  folders into the pending list (the QListWidget is the file collection).
* ConverterApp.convert_files (src/main.py lines 110-156): output-directory
  resolution, empty-batch check, sequential ffmpeg invocation, per-job error
  handling, progress updates, the completion dialog and list clearing.

External collaborators enter as explicit parameters: the filesystem tree
under a dropped folder, the current date, and the outcome of each subprocess
invocation.  Paths are modelled as posix path strings.  The outcome of the
i-th conversion job (1-based) is an environment function Nat -> ProcOutcome:
`success` models subprocess exit code 0, `calledProcessError` models a
non-zero exit (subprocess.run with check=True raises CalledProcessError),
and `fileNotFound` models a failure to launch the ffmpeg executable
(FileNotFoundError).
-/

namespace Mp4Mov

/-- The whitespace characters stripped by the Python str.strip() call on
src/main.py line 112 (the ASCII whitespace set of str.strip). -/
def isPySpace (c : Char) : Bool :=
  c == ' ' || c == '\t' || c == '\n' || c == '\r' || c == '\x0b' || c == '\x0c'

/-- Python str.strip() with no argument: drop whitespace from both ends. -/
def pyStrip (s : String) : String :=
  String.mk (((s.data.dropWhile isPySpace).reverse.dropWhile isPySpace).reverse)

/-- The characters after the last slash of a posix path (os.path.basename,
and the final component used by pathlib names). -/
def lastComponentChars (cs : List Char) : List Char :=
  (cs.reverse.takeWhile (fun c => c != '/')).reverse

/-- os.path.basename on posix: everything after the last slash. -/
def lastComponent (p : String) : String :=
  String.mk (lastComponentChars p.data)

/-- The root part of os.path.splitext applied to a basename (src/main.py
line 131): split off the extension at the last dot, except when the
basename consists of leading dots only up to that dot (leading dots are part
of the root, as in genericpath._splitext). -/
def splitextRoot (b : String) : String :=
  if (b.data.dropWhile (fun c => c == '.')).contains '.' then
    String.mk (((b.data.reverse.dropWhile (fun c => c != '.')).drop 1).reverse)
  else b

/-- pathlib PurePath.suffix of a path string (src/main.py line 67): the
extension of the final component, taken from its last dot; empty when the
last dot is the first character of the name or the name ends in the dot. -/
def pathSuffix (p : String) : String :=
  let n := lastComponentChars p.data
  let after := n.reverse.takeWhile (fun c => c != '.')
  if n.contains '.' = true ∧ after.length + 1 < n.length ∧ 0 < after.length then
    String.mk ('.' :: after.reverse)
  else ""

/-- posixpath.join of a directory and one further component, as called on
src/main.py line 132 (os.path.join(output_dir, basename)). -/
def osPathJoin (a b : String) : String :=
  if b.data.head? = some '/' then b
  else if a.data = [] ∨ a.data.getLast? = some '/' then a ++ b
  else a ++ "/" ++ b

/-- ASCII lowercasing of one character, the part of Python str.lower()
relevant to extension matching. -/
def lowerAscii (c : Char) : Char :=
  if 65 ≤ c.toNat ∧ c.toNat ≤ 90 then Char.ofNat (c.toNat + 32) else c

/-- Python str.lower() restricted to ASCII, as used on src/main.py line 67
(p.suffix.lower()). -/
def strToLower (s : String) : String :=
  String.mk (s.data.map lowerAscii)

/-- One entry of the filesystem tree below a dropped directory: an external
collaborator state read (never written) by DropArea.dropEvent. -/
inductive FSEntry where
  | file (name : String)
  | dir (name : String) (children : List FSEntry)

/-- The final name of a tree entry. -/
def ename : FSEntry → String
  | FSEntry.file n => n
  | FSEntry.dir n _ => n

/-- fnmatch of the literal glob pattern on src/main.py line 70,
p.rglob("*.mp4"), against one name.  On posix platforms pathlib matching is
case-sensitive, so this is an exact, lowercase ".mp4" ending test. -/
def matchesMp4 (n : String) : Bool :=
  n.data.reverse.take 4 == ['4', 'p', 'm', '.']

/-- The children of one directory whose names match the pattern, each
rendered as the directory path followed by the name (the str(file) strings
added on src/main.py line 71).  pathlib yields them in scandir order, which
the tree fixes as the child list order. -/
def dirMatches (pre : String) (cs : List FSEntry) : List String :=
  cs.filterMap (fun e => if matchesMp4 (ename e) then some (pre ++ ename e) else none)

/-- The matches contributed by the subdirectories of a directory, in the
order pathlib rglob enumerates starting points: each subdirectory in child
order, its own matches first, then its subdirectories recursively. -/
def rglobSubs (pre : String) : List FSEntry → List String
  | [] => []
  | FSEntry.file _ :: es => rglobSubs pre es
  | FSEntry.dir n cs :: es =>
      dirMatches (pre ++ n ++ "/") cs ++ rglobSubs (pre ++ n ++ "/") cs ++ rglobSubs pre es

/-- p.rglob("*.mp4") over the tree below a dropped directory: the matches
directly in the directory, then those below each subdirectory. -/
def rglobAll (pre : String) (cs : List FSEntry) : List String :=
  dirMatches pre cs ++ rglobSubs pre cs

/-- The number of entries anywhere in a tree whose name matches the
case-sensitive pattern: the count of paths rglob yields. -/
def treeCount : List FSEntry → Nat
  | [] => 0
  | FSEntry.file n :: es => (if matchesMp4 n then 1 else 0) + treeCount es
  | FSEntry.dir n cs :: es => (if matchesMp4 n then 1 else 0) + treeCount cs + treeCount es

/-- Formalisation of the claim wording, for comparison with the code: the
number of files anywhere in a tree whose extension matches ".mp4"
case-insensitively (.mp4, .MP4, .Mp4, ...). -/
def ciMp4Count : List FSEntry → Nat
  | [] => 0
  | FSEntry.file n :: es =>
      (if (strToLower n).data.reverse.take 4 == ['4', 'p', 'm', '.'] then 1 else 0)
        + ciMp4Count es
  | FSEntry.dir _ cs :: es => ciMp4Count cs + ciMp4Count es

/-- One dropped URL, resolved against the filesystem: a path that is a
file, a path that is a directory (with the tree below it), or a path that
is neither (silently ignored by dropEvent). -/
inductive DropItem where
  | file (path : String)
  | dir (path : String) (children : List FSEntry)
  | other (path : String)

/-- The effect of one dropped URL on the pending list (the body of the for
loop of src/main.py lines 64-71): a file is appended when its suffix
lowercases to ".mp4"; a directory contributes every rglob match; anything
else is ignored.  No branch checks whether a path is already present. -/
def dropAddOne (items : List String) (d : DropItem) : List String :=
  match d with
  | DropItem.file p => if strToLower (pathSuffix p) = ".mp4" then items ++ [p] else items
  | DropItem.dir p cs => items ++ rglobAll (p ++ "/") cs
  | DropItem.other _ => items

/-- DropArea.dropEvent (src/main.py lines 62-74) over the list of dropped
URLs, starting from the current pending list. -/
def dropEvent (items : List String) (urls : List DropItem) : List String :=
  urls.foldl dropAddOne items

/-- A calendar date, standing for datetime.now() on src/main.py line 114. -/
structure Date where
  year : Nat
  month : Nat
  day : Nat

/-- Zero-padded two-digit field of strftime (%m, %d). -/
def pad2 (n : Nat) : String :=
  if n < 10 then "0" ++ toString n else toString n

/-- Zero-padded four-digit field of strftime (%Y). -/
def pad4 (n : Nat) : String :=
  if n < 10 then "000" ++ toString n
  else if n < 100 then "00" ++ toString n
  else if n < 1000 then "0" ++ toString n
  else toString n

/-- strftime("%Y-%m-%d") on src/main.py line 114. -/
def formatDate (d : Date) : String :=
  pad4 d.year ++ "-" ++ pad2 d.month ++ "-" ++ pad2 d.day

/-- Output-directory name resolution, src/main.py lines 112-115: the
stripped text of the input field, or Converted_YYYY-MM-DD when the stripped
text is empty (Python falsiness of the empty string). -/
def resolveOutputDir (userInput : String) (now : Date) : String :=
  let s := pyStrip userInput
  if s = "" then "Converted_" ++ formatDate now else s

/-- The outcome of one subprocess.run invocation of ffmpeg (src/main.py
lines 135-148): exit code 0, a non-zero exit raising CalledProcessError, or
a FileNotFoundError because the executable could not be launched. -/
inductive ProcOutcome where
  | success
  | calledProcessError
  | fileNotFound
deriving DecidableEq

/-- The derived output path of one job, src/main.py lines 131-132:
os.path.join(output_dir, splitext(basename(file))[0] + ".mov"). -/
def outputFileFor (output_dir file : String) : String :=
  osPathJoin output_dir (splitextRoot (lastComponent file) ++ ".mov")

/-- The exact argument vector passed to subprocess.run on src/main.py
lines 135-142. -/
def ffmpegArgv (fp file output_file : String) : List String :=
  [fp, "-i", file, "-c:v", "copy", "-c:a", "pcm_s24le", output_file, "-y"]

/-- The observable accumulations of the conversion loop: the subprocess
invocations issued, the progress updates pushed to the bar after successful
jobs (recorded as the pair (i, total) behind int((i/total)*100)), the
per-file error dialogs of recoverable failures, and the number of jobs that
reached the progress update (the succeeded count). -/
structure LoopAcc where
  calls : List (List String)
  progressEmits : List (Nat × Nat)
  errorsShown : List String
  succeeded : Nat

/-- The for loop of ConverterApp.convert_files (src/main.py lines 130-152),
one iteration per remaining file, with i the 1-based position.  On
CalledProcessError a critical dialog is recorded and the loop continues,
skipping the progress update; on FileNotFoundError the whole handler
returns at once (the Bool result is true exactly in that fatal case). -/
def convertLoop (fp output_dir : String) (total : Nat) (env : Nat → ProcOutcome) :
    List String → Nat → LoopAcc → LoopAcc × Bool
  | [], _, acc => (acc, false)
  | file :: rest, i, acc =>
    let output_file := outputFileFor output_dir file
    let acc2 : LoopAcc := { acc with calls := acc.calls ++ [ffmpegArgv fp file output_file] }
    match env i with
    | ProcOutcome.fileNotFound => (acc2, true)
    | ProcOutcome.calledProcessError =>
        convertLoop fp output_dir total env rest (i + 1)
          { acc2 with errorsShown := acc2.errorsShown ++ [file] }
    | ProcOutcome.success =>
        convertLoop fp output_dir total env rest (i + 1)
          { acc2 with succeeded := acc2.succeeded + 1,
                      progressEmits := acc2.progressEmits ++ [(i, total)] }

/-- Everything observable about one run of ConverterApp.convert_files:
whether the empty-batch warning fired, which directory was ensured to
exist, the subprocess calls, the progress updates, the per-file error
dialogs, the succeeded count, whether the run aborted on FileNotFoundError,
the completion dialog contents (count shown, directory shown), and the
pending list contents after the run. -/
structure ConvertResult where
  emptyBatchWarned : Bool
  dirEnsured : Option String
  calls : List (List String)
  progressEmits : List (Nat × Nat)
  errorsShown : List String
  succeeded : Nat
  fatal : Bool
  summaryShown : Option (Nat × String)
  finalListItems : List String

/-- The state convert_files reads: the pending list (the list widget
items, line 117) and the output folder name field (line 112). -/
structure AppState where
  listItems : List String
  outputInput : String

/-- ConverterApp.convert_files, src/main.py lines 110-156.  The date and
the per-invocation subprocess outcomes are external inputs.  Empty batch:
warning dialog and return before the directory is created (lines 118-120).
Fatal abort (FileNotFoundError): return with the list unchanged and no
completion dialog (lines 146-148).  Otherwise the completion dialog shows
len(files) and the resolved directory, and the list is cleared
(lines 154-156). -/
def convert_files (fp : String) (st : AppState) (now : Date) (env : Nat → ProcOutcome) :
    ConvertResult :=
  let output_dir := resolveOutputDir st.outputInput now
  let files := st.listItems
  if files.isEmpty then
    { emptyBatchWarned := true, dirEnsured := none, calls := [], progressEmits := [],
      errorsShown := [], succeeded := 0, fatal := false, summaryShown := none,
      finalListItems := st.listItems }
  else
    match convertLoop fp output_dir files.length env files 1 ⟨[], [], [], 0⟩ with
    | (acc, true) =>
      { emptyBatchWarned := false, dirEnsured := some output_dir, calls := acc.calls,
        progressEmits := acc.progressEmits, errorsShown := acc.errorsShown,
        succeeded := acc.succeeded, fatal := true, summaryShown := none,
        finalListItems := st.listItems }
    | (acc, false) =>
      { emptyBatchWarned := false, dirEnsured := some output_dir, calls := acc.calls,
        progressEmits := acc.progressEmits, errorsShown := acc.errorsShown,
        succeeded := acc.succeeded, fatal := false,
        summaryShown := some (files.length, output_dir), finalListItems := [] }

/-- The progress pairs (i, total) emitted by jobs at 1-based positions
i, i+1, ... driving the given files, counting only successful jobs. -/
def successEmits (env : Nat → ProcOutcome) (total : Nat) : Nat → List String → List (Nat × Nat)
  | _, [] => []
  | i, _ :: rest =>
      (if env i = ProcOutcome.success then [(i, total)] else [])
        ++ successEmits env total (i + 1) rest

/-- The files among the given ones whose job fails with a recoverable
(non-zero exit) error, in order. -/
def failedFiles (env : Nat → ProcOutcome) : Nat → List String → List String
  | _, [] => []
  | i, f :: rest =>
      (if env i = ProcOutcome.calledProcessError then [f] else [])
        ++ failedFiles env (i + 1) rest

/-- The number of successful jobs among the given files. -/
def successCount (env : Nat → ProcOutcome) : Nat → List String → Nat
  | _, [] => 0
  | i, _ :: rest =>
      (if env i = ProcOutcome.success then 1 else 0) + successCount env (i + 1) rest

/-- A concrete three-job environment: job 2 exits non-zero, jobs 1 and 3
succeed, and the converter always launches. -/
def env3 : Nat → ProcOutcome :=
  fun j => if j == 2 then ProcOutcome.calledProcessError else ProcOutcome.success

/-- A concrete environment in which the ffmpeg executable can never be
launched. -/
def envNF : Nat → ProcOutcome :=
  fun _ => ProcOutcome.fileNotFound

/-- String append acts as list append on the underlying characters. -/
theorem strData_append : ∀ s t : String, (s ++ t).data = s.data ++ t.data
  | ⟨_⟩, ⟨_⟩ => rfl

/-- Rebuilding a string from its characters gives the string back. -/
theorem strMk_data : ∀ s : String, String.mk s.data = s
  | ⟨_⟩ => rfl

/-- C6: running convert_files on an empty pending list fires the
empty-batch warning and stops before any work: no directory is ensured, no
subprocess is invoked, no progress is emitted, no completion dialog is
shown, and the run is not a fatal abort. -/
theorem convert_files_empty_batch (fp inp : String) (now : Date) (env : Nat → ProcOutcome) :
    (convert_files fp ⟨[], inp⟩ now env).emptyBatchWarned = true
    ∧ (convert_files fp ⟨[], inp⟩ now env).dirEnsured = none
    ∧ (convert_files fp ⟨[], inp⟩ now env).calls = []
    ∧ (convert_files fp ⟨[], inp⟩ now env).progressEmits = []
    ∧ (convert_files fp ⟨[], inp⟩ now env).fatal = false
    ∧ (convert_files fp ⟨[], inp⟩ now env).summaryShown = none := by
  exact ⟨rfl, rfl, rfl, rfl, rfl, rfl⟩

/-- C7: the output directory name is the stripped user input when that is
non-empty, and otherwise Converted_YYYY-MM-DD from the current date; in
particular resolve of the empty input at 2024-03-07 is
Converted_2024-03-07, and resolve of a padded name is the trimmed name. -/
theorem resolveOutputDir_spec :
    (∀ (inp : String) (now : Date),
        resolveOutputDir inp now
          = if pyStrip inp = "" then "Converted_" ++ formatDate now else pyStrip inp)
    ∧ resolveOutputDir "" ⟨2024, 3, 7⟩ = "Converted_2024-03-07"
    ∧ resolveOutputDir "  MyClips " ⟨2024, 3, 7⟩ = "MyClips" := by
  refine ⟨fun inp now => rfl, by decide, by decide⟩

/-- C1 counterexample: dropping a file path that is already the sole entry
of the pending list appends a second copy, so adding the same path twice
does produce a duplicate entry and the collection is not left unchanged. -/
theorem duplicate_drop_duplicates :
    dropEvent ["/in/a.mp4"] [DropItem.file "/in/a.mp4"] = ["/in/a.mp4", "/in/a.mp4"]
    ∧ dropEvent ["/in/a.mp4"] [DropItem.file "/in/a.mp4"] ≠ ["/in/a.mp4"] := by
  exact ⟨by decide, by decide⟩

/-- C1 amended: dropEvent never checks for presence: dropping a file whose
suffix lowercases to ".mp4" always appends it at the end of the pending
list, even when the identical path string is already present. -/
theorem drop_file_always_appends (items : List String) (p : String)
    (h : strToLower (pathSuffix p) = ".mp4") :
    dropEvent items [DropItem.file p] = items ++ [p] := by
  simp [dropEvent, dropAddOne, h]

/-- C1 amended witness: the already-present path of the counterexample is
appended again. -/
theorem drop_file_always_appends_witness :
    dropEvent ["/in/a.mp4"] [DropItem.file "/in/a.mp4"] = ["/in/a.mp4"] ++ ["/in/a.mp4"] :=
  drop_file_always_appends ["/in/a.mp4"] "/in/a.mp4" (by decide)

/-- C9: two sources with the same file-name stem map to the identical
output path under the same output directory, and every ffmpeg invocation
carries the overwrite flag -y, so the later job overwrites the output of
the earlier one; concretely, clip.mp4 and clip.MP4 from different folders
share the output path. -/
theorem same_stem_collision (output_dir f1 f2 : String)
    (h : splitextRoot (lastComponent f1) = splitextRoot (lastComponent f2)) :
    outputFileFor output_dir f1 = outputFileFor output_dir f2
    ∧ ∀ fp file ofile : String, "-y" ∈ ffmpegArgv fp file ofile := by
  constructor
  · unfold outputFileFor
    rw [h]
  · intro fp file ofile
    simp [ffmpegArgv]

/-- C9 witness: sources /a/clip.mp4 and /b/clip.MP4 have equal stems and
collide on out/clip.mov. -/
theorem same_stem_collision_witness :
    outputFileFor "out" "/a/clip.mp4" = outputFileFor "out" "/b/clip.MP4"
    ∧ ∀ fp file ofile : String, "-y" ∈ ffmpegArgv fp file ofile :=
  same_stem_collision "out" "/a/clip.mp4" "/b/clip.MP4" (by decide)

/-- C4 counterexample: a directory holding the single file clip.MP4 has one
file with a case-insensitive .mp4 extension, yet dropping the directory
appends nothing, because the rglob pattern *.mp4 matches case-sensitively
on posix platforms. -/
theorem dir_drop_misses_uppercase :
    ciMp4Count [FSEntry.file "clip.MP4"] = 1
    ∧ dropEvent [] [DropItem.dir "/d" [FSEntry.file "clip.MP4"]] = []
    ∧ (dropEvent [] [DropItem.dir "/d" [FSEntry.file "clip.MP4"]]).length ≠ 1 := by
  refine ⟨?_, ?_, ?_⟩
  · simp only [ciMp4Count]
    decide
  · simp only [dropEvent, List.foldl, dropAddOne, rglobAll, rglobSubs, dirMatches]
    decide
  · simp only [dropEvent, List.foldl, dropAddOne, rglobAll, rglobSubs, dirMatches]
    decide

/-- When every invocation of the converter launches (no FileNotFoundError),
the loop runs every file in order: it calls ffmpeg once per file, emits one
progress pair per successful job, shows one error dialog per non-zero exit,
and never aborts. -/
theorem convertLoop_no_fatal (fp od : String) (total : Nat) (env : Nat → ProcOutcome)
    (henv : ∀ j, env j ≠ ProcOutcome.fileNotFound) :
    ∀ (fs : List String) (i : Nat) (acc : LoopAcc),
      convertLoop fp od total env fs i acc =
        ({ calls := acc.calls ++ fs.map (fun f => ffmpegArgv fp f (outputFileFor od f)),
           progressEmits := acc.progressEmits ++ successEmits env total i fs,
           errorsShown := acc.errorsShown ++ failedFiles env i fs,
           succeeded := acc.succeeded + successCount env i fs }, false) := by
  intro fs
  induction fs with
  | nil =>
    intro i acc
    simp [convertLoop, successEmits, failedFiles, successCount]
  | cons f rest ih =>
    intro i acc
    have hf := henv i
    cases h : env i with
    | fileNotFound => exact absurd h hf
    | calledProcessError =>
      simp only [convertLoop, h]
      rw [ih (i + 1)]
      simp [successEmits, failedFiles, successCount, h, List.append_assoc]
    | success =>
      simp only [convertLoop, h]
      rw [ih (i + 1)]
      simp [successEmits, failedFiles, successCount, h, List.append_assoc, Nat.add_assoc]

/-- Every progress pair emitted for jobs at positions i, i+1, ... lies in
that position range and carries the fixed total. -/
theorem successEmits_bounds (env : Nat → ProcOutcome) (total : Nat) :
    ∀ (fs : List String) (i : Nat) (x : Nat × Nat),
      x ∈ successEmits env total i fs → i ≤ x.1 ∧ x.1 < i + fs.length ∧ x.2 = total := by
  intro fs
  induction fs with
  | nil => intro i x hx; simp [successEmits] at hx
  | cons f rest ih =>
    intro i x hx
    simp only [successEmits, List.mem_append] at hx
    rcases hx with h1 | h2
    · by_cases hs : env i = ProcOutcome.success
      · rw [if_pos hs] at h1
        simp only [List.mem_singleton] at h1
        subst h1
        refine ⟨Nat.le_refl i, by simp, rfl⟩
      · rw [if_neg hs] at h1
        simp at h1
    · have hb := ih (i + 1) x h2
      refine ⟨by omega, by simp only [List.length_cons]; omega, hb.2.2⟩

/-- The emitted progress positions are strictly increasing. -/
theorem successEmits_pairwise (env : Nat → ProcOutcome) (total : Nat) :
    ∀ (fs : List String) (i : Nat),
      ((successEmits env total i fs).map Prod.fst).Pairwise (· < ·) := by
  intro fs
  induction fs with
  | nil => intro i; simp [successEmits]
  | cons f rest ih =>
    intro i
    simp only [successEmits]
    by_cases hs : env i = ProcOutcome.success
    · rw [if_pos hs]
      simp only [List.singleton_append, List.map_cons]
      refine List.Pairwise.cons ?_ (ih (i + 1))
      intro y hy
      rcases List.mem_map.mp hy with ⟨x, hx, rfl⟩
      have hb := successEmits_bounds env total rest (i + 1) x hx
      omega
    · rw [if_neg hs]
      simpa using ih (i + 1)

/-- A progress pair (k, total) is emitted over jobs i, i+1, ... exactly
when job k succeeds and k lies in the driven range. -/
theorem mem_successEmits (env : Nat → ProcOutcome) (total : Nat) :
    ∀ (fs : List String) (i k : Nat),
      ((k, total) ∈ successEmits env total i fs)
        ↔ (env k = ProcOutcome.success ∧ i ≤ k ∧ k < i + fs.length) := by
  intro fs
  induction fs with
  | nil =>
    intro i k
    simp only [successEmits, List.not_mem_nil, List.length_nil, false_iff]
    intro h
    omega
  | cons f rest ih =>
    intro i k
    simp only [successEmits, List.mem_append, ih (i + 1), List.length_cons]
    by_cases hs : env i = ProcOutcome.success
    · rw [if_pos hs]
      simp only [List.mem_singleton, Prod.mk.injEq, and_true]
      constructor
      · rintro (rfl | ⟨h1, h2, h3⟩)
        · exact ⟨hs, Nat.le_refl k, by omega⟩
        · exact ⟨h1, by omega, by omega⟩
      · rintro ⟨h1, h2, h3⟩
        by_cases hk : k = i
        · exact Or.inl hk
        · exact Or.inr ⟨h1, by omega, by omega⟩
    · rw [if_neg hs]
      simp only [List.not_mem_nil, false_or]
      constructor
      · rintro ⟨h1, h2, h3⟩
        exact ⟨h1, by omega, by omega⟩
      · rintro ⟨h1, h2, h3⟩
        have hk : k ≠ i := by
          intro hki
          subst hki
          exact hs h1
        exact ⟨h1, by omega, by omega⟩

/-- C2 counterexample: with 3 inputs where job 2 exits non-zero and jobs 1
and 3 succeed, the progress updates are 1/3 and 3/3 only: the continue on
CalledProcessError skips the progress update, so the claimed sequence
1/3, 2/3, 3/3 is not emitted. -/
theorem convert_files_progress_skips_failed_job :
    (convert_files "ffmpeg" ⟨["/in/a.mp4", "/in/b.mp4", "/in/c.mp4"], ""⟩ ⟨2024, 3, 7⟩
        env3).progressEmits = [(1, 3), (3, 3)]
    ∧ (convert_files "ffmpeg" ⟨["/in/a.mp4", "/in/b.mp4", "/in/c.mp4"], ""⟩ ⟨2024, 3, 7⟩
        env3).progressEmits ≠ [(1, 3), (2, 3), (3, 3)] :=
  ⟨by decide, by decide⟩

/-- C2 amended: when the converter always launches, progress i/total is
emitted exactly for the successful jobs i (a recoverable failure emits
nothing for its position); the emitted positions are strictly increasing,
and the final fraction total/total is emitted precisely when the last job
succeeds. -/
theorem convert_files_progress_on_success_only
    (fp inp : String) (now : Date) (items : List String) (env : Nat → ProcOutcome)
    (hne : items ≠ []) (henv : ∀ j, env j ≠ ProcOutcome.fileNotFound) :
    (convert_files fp ⟨items, inp⟩ now env).progressEmits
        = successEmits env items.length 1 items
    ∧ ((convert_files fp ⟨items, inp⟩ now env).progressEmits.map Prod.fst).Pairwise (· < ·)
    ∧ (((items.length, items.length) ∈ (convert_files fp ⟨items, inp⟩ now env).progressEmits)
        ↔ env items.length = ProcOutcome.success) := by
  have hie : items.isEmpty = false := by
    cases items with
    | nil => exact absurd rfl hne
    | cons a l => rfl
  have h1 : (convert_files fp ⟨items, inp⟩ now env).progressEmits
      = successEmits env items.length 1 items := by
    simp only [convert_files, hie, Bool.false_eq_true, if_false]
    rw [convertLoop_no_fatal fp _ items.length env henv items 1 ⟨[], [], [], 0⟩]
    simp
  refine ⟨h1, ?_, ?_⟩
  · rw [h1]
    exact successEmits_pairwise env items.length items 1
  · rw [h1, mem_successEmits env items.length items 1 items.length]
    constructor
    · intro h
      exact h.1
    · intro h
      have hlen : 1 ≤ items.length := by
        cases items with
        | nil => exact absurd rfl hne
        | cons a l => simp
      exact ⟨h, hlen, by omega⟩

/-- C2 amended witness: the three-job scenario of the counterexample
instantiates the amended statement. -/
theorem convert_files_progress_on_success_only_witness :
    (convert_files "ffmpeg" ⟨["/in/a.mp4", "/in/b.mp4", "/in/c.mp4"], ""⟩ ⟨2024, 3, 7⟩
        env3).progressEmits
        = successEmits env3 3 1 ["/in/a.mp4", "/in/b.mp4", "/in/c.mp4"]
    ∧ ((convert_files "ffmpeg" ⟨["/in/a.mp4", "/in/b.mp4", "/in/c.mp4"], ""⟩ ⟨2024, 3, 7⟩
        env3).progressEmits.map Prod.fst).Pairwise (· < ·)
    ∧ (((3, 3) ∈ (convert_files "ffmpeg" ⟨["/in/a.mp4", "/in/b.mp4", "/in/c.mp4"], ""⟩
        ⟨2024, 3, 7⟩ env3).progressEmits) ↔ env3 3 = ProcOutcome.success) :=
  convert_files_progress_on_success_only "ffmpeg" "" ⟨2024, 3, 7⟩
    ["/in/a.mp4", "/in/b.mp4", "/in/c.mp4"] env3 (by simp)
    (by
      intro j
      simp only [env3]
      split <;> simp)

/-- C3 (code bug evaluation): in the three-job scenario with one
recoverable failure, the completion dialog reports the total count 3 (the
len(files) of src/main.py line 155) although only 2 jobs succeeded; the
aggregate invariant succeeded plus failures equals total does hold. -/
theorem convert_files_summary_counts_total :
    (convert_files "ffmpeg" ⟨["/in/a.mp4", "/in/b.mp4", "/in/c.mp4"], ""⟩ ⟨2024, 3, 7⟩
        env3).summaryShown = some (3, "Converted_2024-03-07")
    ∧ (convert_files "ffmpeg" ⟨["/in/a.mp4", "/in/b.mp4", "/in/c.mp4"], ""⟩ ⟨2024, 3, 7⟩
        env3).succeeded = 2
    ∧ (convert_files "ffmpeg" ⟨["/in/a.mp4", "/in/b.mp4", "/in/c.mp4"], ""⟩ ⟨2024, 3, 7⟩
        env3).errorsShown = ["/in/b.mp4"]
    ∧ (convert_files "ffmpeg" ⟨["/in/a.mp4", "/in/b.mp4", "/in/c.mp4"], ""⟩ ⟨2024, 3, 7⟩
        env3).succeeded
      + (convert_files "ffmpeg" ⟨["/in/a.mp4", "/in/b.mp4", "/in/c.mp4"], ""⟩ ⟨2024, 3, 7⟩
        env3).errorsShown.length = 3 :=
  ⟨by decide, by decide, by decide, by decide⟩

/-- When the converter first fails to launch at offset k into the driven
files (after k jobs that did launch), the loop stops at that invocation:
it has called ffmpeg for the first k+1 files only, accumulated outcomes
for the first k jobs only, and reports the fatal abort. -/
theorem convertLoop_fatal (fp od : String) (total : Nat) (env : Nat → ProcOutcome) :
    ∀ (fs : List String) (k i : Nat) (acc : LoopAcc),
      k < fs.length → env (i + k) = ProcOutcome.fileNotFound →
      (∀ j, j < k → env (i + j) ≠ ProcOutcome.fileNotFound) →
      convertLoop fp od total env fs i acc =
        ({ calls := acc.calls
              ++ (fs.take (k + 1)).map (fun f => ffmpegArgv fp f (outputFileFor od f)),
           progressEmits := acc.progressEmits ++ successEmits env total i (fs.take k),
           errorsShown := acc.errorsShown ++ failedFiles env i (fs.take k),
           succeeded := acc.succeeded + successCount env i (fs.take k) }, true) := by
  intro fs
  induction fs with
  | nil =>
    intro k i acc hk
    simp at hk
  | cons f rest ih =>
    intro k i acc hk henvk hprev
    cases k with
    | zero =>
      have h0 : env i = ProcOutcome.fileNotFound := by simpa using henvk
      simp only [convertLoop, h0]
      simp [successEmits, failedFiles, successCount]
    | succ k0 =>
      have h0 : env i ≠ ProcOutcome.fileNotFound := by
        have := hprev 0 (Nat.succ_pos k0)
        simpa using this
      have hk0 : k0 < rest.length := by
        simp only [List.length_cons] at hk
        omega
      have henvk0 : env ((i + 1) + k0) = ProcOutcome.fileNotFound := by
        have he : (i + 1) + k0 = i + (k0 + 1) := by omega
        rw [he]
        exact henvk
      have hprev0 : ∀ j, j < k0 → env ((i + 1) + j) ≠ ProcOutcome.fileNotFound := by
        intro j hj
        have he : (i + 1) + j = i + (j + 1) := by omega
        rw [he]
        exact hprev (j + 1) (by omega)
      cases h : env i with
      | fileNotFound => exact absurd h h0
      | calledProcessError =>
        simp only [convertLoop, h]
        rw [ih k0 (i + 1) _ hk0 henvk0 hprev0]
        simp [successEmits, failedFiles, successCount, h, List.append_assoc]
      | success =>
        simp only [convertLoop, h]
        rw [ih k0 (i + 1) _ hk0 henvk0 hprev0]
        simp [successEmits, failedFiles, successCount, h, List.append_assoc, Nat.add_assoc]

/-- Over a stretch of jobs in which the converter always launches, every
job either succeeds or lands in the failure dialogs: the two tallies sum
to the number of jobs. -/
theorem successCount_add_failed (env : Nat → ProcOutcome) :
    ∀ (fs : List String) (i : Nat),
      (∀ j, j < fs.length → env (i + j) ≠ ProcOutcome.fileNotFound) →
      successCount env i fs + (failedFiles env i fs).length = fs.length := by
  intro fs
  induction fs with
  | nil =>
    intro i h
    simp [successCount, failedFiles]
  | cons f rest ih =>
    intro i h
    have h0 : env i ≠ ProcOutcome.fileNotFound := by
      have := h 0 (by simp)
      simpa using this
    have hrest : ∀ j, j < rest.length → env ((i + 1) + j) ≠ ProcOutcome.fileNotFound := by
      intro j hj
      have he : (i + 1) + j = i + (j + 1) := by omega
      rw [he]
      exact h (j + 1) (by simp only [List.length_cons]; omega)
    cases hi : env i with
    | fileNotFound => exact absurd hi h0
    | calledProcessError =>
      simp only [successCount, failedFiles, hi]
      simp only [List.length_cons]
      rw [← ih (i + 1) hrest]
      simp
      omega
    | success =>
      simp only [successCount, failedFiles, hi]
      simp only [List.length_cons]
      rw [← ih (i + 1) hrest]
      simp
      omega

/-- C5: when the converter cannot be launched at 1-based position k+1 while
every earlier invocation did launch, convert_files aborts fatally: exactly
k+1 subprocess invocations happen (none after the failing one), no
completion dialog is shown, and the aggregate reflects only the k jobs
completed before the abort, with succeeded plus failures equal to k. -/
theorem convert_files_fatal_abort
    (fp inp : String) (now : Date) (items : List String) (env : Nat → ProcOutcome)
    (k : Nat) (hk : k < items.length) (hf : env (1 + k) = ProcOutcome.fileNotFound)
    (hprev : ∀ j, j < k → env (1 + j) ≠ ProcOutcome.fileNotFound) :
    (convert_files fp ⟨items, inp⟩ now env).fatal = true
    ∧ (convert_files fp ⟨items, inp⟩ now env).calls.length = k + 1
    ∧ (convert_files fp ⟨items, inp⟩ now env).summaryShown = none
    ∧ (convert_files fp ⟨items, inp⟩ now env).succeeded = successCount env 1 (items.take k)
    ∧ (convert_files fp ⟨items, inp⟩ now env).errorsShown = failedFiles env 1 (items.take k)
    ∧ (convert_files fp ⟨items, inp⟩ now env).succeeded
        + (convert_files fp ⟨items, inp⟩ now env).errorsShown.length = k := by
  have hie : items.isEmpty = false := by
    cases items with
    | nil => simp at hk
    | cons a l => rfl
  have hthis : convert_files fp ⟨items, inp⟩ now env =
      { emptyBatchWarned := false, dirEnsured := some (resolveOutputDir inp now),
        calls := (items.take (k + 1)).map
          (fun f => ffmpegArgv fp f (outputFileFor (resolveOutputDir inp now) f)),
        progressEmits := successEmits env items.length 1 (items.take k),
        errorsShown := failedFiles env 1 (items.take k),
        succeeded := successCount env 1 (items.take k), fatal := true, summaryShown := none,
        finalListItems := items } := by
    simp only [convert_files, hie, Bool.false_eq_true, if_false]
    rw [convertLoop_fatal fp _ items.length env items k 1 ⟨[], [], [], 0⟩ hk hf hprev]
    simp
  rw [hthis]
  refine ⟨rfl, ?_, rfl, rfl, rfl, ?_⟩
  · simp only [List.length_map, List.length_take]
    omega
  · have htk : ∀ j, j < (items.take k).length → env (1 + j) ≠ ProcOutcome.fileNotFound := by
      intro j hj
      refine hprev j ?_
      simp only [List.length_take] at hj
      omega
    have := successCount_add_failed env (items.take k) 1 htk
    rw [this]
    simp only [List.length_take]
    omega

/-- C5 witness: three inputs with the converter unreachable from the first
job: one invocation only, fatal abort, no dialog, empty aggregate. -/
theorem convert_files_fatal_abort_witness :
    (convert_files "ffmpeg" ⟨["/in/a.mp4", "/in/b.mp4", "/in/c.mp4"], ""⟩ ⟨2024, 3, 7⟩
        envNF).fatal = true
    ∧ (convert_files "ffmpeg" ⟨["/in/a.mp4", "/in/b.mp4", "/in/c.mp4"], ""⟩ ⟨2024, 3, 7⟩
        envNF).calls.length = 0 + 1
    ∧ (convert_files "ffmpeg" ⟨["/in/a.mp4", "/in/b.mp4", "/in/c.mp4"], ""⟩ ⟨2024, 3, 7⟩
        envNF).summaryShown = none
    ∧ (convert_files "ffmpeg" ⟨["/in/a.mp4", "/in/b.mp4", "/in/c.mp4"], ""⟩ ⟨2024, 3, 7⟩
        envNF).succeeded
        = successCount envNF 1 (["/in/a.mp4", "/in/b.mp4", "/in/c.mp4"].take 0)
    ∧ (convert_files "ffmpeg" ⟨["/in/a.mp4", "/in/b.mp4", "/in/c.mp4"], ""⟩ ⟨2024, 3, 7⟩
        envNF).errorsShown
        = failedFiles envNF 1 (["/in/a.mp4", "/in/b.mp4", "/in/c.mp4"].take 0)
    ∧ (convert_files "ffmpeg" ⟨["/in/a.mp4", "/in/b.mp4", "/in/c.mp4"], ""⟩ ⟨2024, 3, 7⟩
        envNF).succeeded
      + (convert_files "ffmpeg" ⟨["/in/a.mp4", "/in/b.mp4", "/in/c.mp4"], ""⟩ ⟨2024, 3, 7⟩
        envNF).errorsShown.length = 0 :=
  convert_files_fatal_abort "ffmpeg" "" ⟨2024, 3, 7⟩
    ["/in/a.mp4", "/in/b.mp4", "/in/c.mp4"] envNF 0 (by simp) rfl
    (by
      intro j hj
      omega)

/-- C10: a fatal abort leaves the pending list exactly as it was at batch
start and shows no completion dialog; a non-aborted, non-empty run shows
the completion dialog and clears the list. -/
theorem fatal_keeps_pending_list
    (fp inp : String) (now : Date) (items : List String) (env : Nat → ProcOutcome) :
    ((convert_files fp ⟨items, inp⟩ now env).fatal = true →
        (convert_files fp ⟨items, inp⟩ now env).finalListItems = items
        ∧ (convert_files fp ⟨items, inp⟩ now env).summaryShown = none)
    ∧ ((convert_files fp ⟨items, inp⟩ now env).fatal = false →
        (convert_files fp ⟨items, inp⟩ now env).emptyBatchWarned = false →
        (convert_files fp ⟨items, inp⟩ now env).finalListItems = []
        ∧ (convert_files fp ⟨items, inp⟩ now env).summaryShown
            = some (items.length, resolveOutputDir inp now)) := by
  cases hie : items.isEmpty with
  | true =>
    have hnil : items = [] := by
      cases items with
      | nil => rfl
      | cons a l => simp at hie
    subst hnil
    constructor
    · intro hfat
      simp only [convert_files] at hfat
      simp at hfat
    · intro _ hw
      simp only [convert_files] at hw
      simp at hw
  | false =>
    rcases hL : convertLoop fp (resolveOutputDir inp now) items.length env items 1
        ⟨[], [], [], 0⟩ with ⟨acc, b⟩
    have hcv : convert_files fp ⟨items, inp⟩ now env =
        (if b then
          { emptyBatchWarned := false, dirEnsured := some (resolveOutputDir inp now),
            calls := acc.calls, progressEmits := acc.progressEmits,
            errorsShown := acc.errorsShown, succeeded := acc.succeeded, fatal := true,
            summaryShown := none, finalListItems := items }
        else
          { emptyBatchWarned := false, dirEnsured := some (resolveOutputDir inp now),
            calls := acc.calls, progressEmits := acc.progressEmits,
            errorsShown := acc.errorsShown, succeeded := acc.succeeded, fatal := false,
            summaryShown := some (items.length, resolveOutputDir inp now),
            finalListItems := [] }) := by
      simp only [convert_files, hie, Bool.false_eq_true, if_false, hL]
      cases b <;> simp
    cases b with
    | true =>
      rw [hcv]
      simp
    | false =>
      rw [hcv]
      simp

/-- C10 witness: with the converter unreachable, a one-file batch aborts
fatally, the pending list still holds the file, and no dialog is shown. -/
theorem fatal_keeps_pending_list_witness :
    (convert_files "ffmpeg" ⟨["/in/a.mp4"], ""⟩ ⟨2024, 3, 7⟩ envNF).finalListItems
        = ["/in/a.mp4"]
    ∧ (convert_files "ffmpeg" ⟨["/in/a.mp4"], ""⟩ ⟨2024, 3, 7⟩ envNF).summaryShown = none :=
  (fatal_keeps_pending_list "ffmpeg" "" ⟨2024, 3, 7⟩ ["/in/a.mp4"] envNF).1 (by decide)

/-- The number of paths rglob yields below a directory equals the number
of tree entries whose name matches the case-sensitive pattern. -/
theorem rglob_count : ∀ (pre : String) (es : List FSEntry),
    (dirMatches pre es).length + (rglobSubs pre es).length = treeCount es
  | _, [] => by simp [dirMatches, rglobSubs, treeCount]
  | pre, FSEntry.file n :: es => by
    have ih := rglob_count pre es
    by_cases h : matchesMp4 n <;>
      simp only [dirMatches, rglobSubs, treeCount, List.filterMap_cons, ename, h,
        if_true, if_false, Bool.false_eq_true, List.length_cons] at * <;>
      omega
  | pre, FSEntry.dir n cs :: es => by
    have ih1 := rglob_count (pre ++ n ++ "/") cs
    have ih2 := rglob_count pre es
    by_cases h : matchesMp4 n <;>
      simp only [dirMatches, rglobSubs, treeCount, List.filterMap_cons, ename, h,
        if_true, if_false, Bool.false_eq_true, List.length_append, List.length_cons] at * <;>
      omega

/-- C4 amended: dropping a directory appends, after the current entries
and with no presence check, exactly the paths below it whose final name
matches the glob pattern *.mp4 case-sensitively (posix pathlib matching),
in the fixed traversal order of the tree; their number is the count of
matching entries, so every non-matching file, including ones with an
upper-case .MP4 extension, is ignored. -/
theorem dir_drop_exact_lowercase_matches
    (items : List String) (path : String) (es : List FSEntry) :
    dropEvent items [DropItem.dir path es] = items ++ rglobAll (path ++ "/") es
    ∧ (rglobAll (path ++ "/") es).length = treeCount es := by
  constructor
  · simp [dropEvent, dropAddOne]
  · simp only [rglobAll, List.length_append]
    exact rglob_count (path ++ "/") es

/-- takeWhile passes over a leading block whose characters all satisfy the
predicate. -/
theorem takeWhile_append_all (p : Char → Bool) :
    ∀ (ds es : List Char), (∀ c ∈ ds, p c = true) →
      (ds ++ es).takeWhile p = ds ++ es.takeWhile p
  | [], es, _ => rfl
  | d :: ds, es, h => by
    have hd : p d = true := h d (List.mem_cons_self d ds)
    simp only [List.cons_append, List.takeWhile_cons, hd, if_true]
    rw [takeWhile_append_all p ds es (fun c hc => h c (List.mem_cons_of_mem d hc))]

/-- takeWhile stops at once on a failing head. -/
theorem takeWhile_cons_stop (p : Char → Bool) (a : Char) (l : List Char) (h : p a = false) :
    (a :: l).takeWhile p = [] := by
  simp [List.takeWhile_cons, h]

/-- Characters kept by takeWhile satisfy the predicate. -/
theorem mem_takeWhile_sat (p : Char → Bool) :
    ∀ (l : List Char) (c : Char), c ∈ l.takeWhile p → p c = true
  | [], c, h => absurd h (List.not_mem_nil c)
  | a :: l, c, h => by
    simp only [List.takeWhile_cons] at h
    cases ha : p a with
    | true =>
      rw [ha] at h
      simp only [if_true] at h
      rcases List.mem_cons.mp h with rfl | hm
      · exact ha
      · exact mem_takeWhile_sat p l c hm
    | false =>
      rw [ha] at h
      simp at h

/-- No character of a last path component is a slash. -/
theorem lastComponentChars_no_slash (cs : List Char) :
    ∀ c ∈ lastComponentChars cs, (c != '/') = true := by
  intro c hc
  unfold lastComponentChars at hc
  exact mem_takeWhile_sat _ _ c (List.mem_reverse.mp hc)

/-- Appending slash-free characters to a path extends its last
component by exactly those characters. -/
theorem lastComponentChars_append (xs ds : List Char)
    (h : ∀ c ∈ ds, (c != '/') = true) :
    lastComponentChars (xs ++ ds) = lastComponentChars xs ++ ds := by
  unfold lastComponentChars
  rw [List.reverse_append,
    takeWhile_append_all _ ds.reverse xs.reverse (fun c hc => h c (List.mem_reverse.mp hc)),
    List.reverse_append, List.reverse_reverse]

/-- splitextRoot only keeps characters of its input. -/
theorem splitextRoot_chars (b : String) :
    ∀ c ∈ (splitextRoot b).data, c ∈ b.data := by
  intro c hc
  unfold splitextRoot at hc
  by_cases h : (b.data.dropWhile (fun c => c == '.')).contains '.'
  · rw [if_pos h] at hc
    have h1 := List.mem_reverse.mp hc
    have h2 : c ∈ b.data.reverse.dropWhile (fun c => c != '.') :=
      (List.drop_sublist 1 _).subset h1
    have h3 : c ∈ b.data.reverse := (List.dropWhile_sublist _).subset h2
    exact List.mem_reverse.mp h3
  · rw [if_neg h] at hc
    exact hc

/-- No character of the derived output base name (stem plus .mov) is a
slash. -/
theorem movName_no_slash (f : String) :
    ∀ c ∈ (splitextRoot (lastComponent f) ++ ".mov").data, (c != '/') = true := by
  intro c hc
  rw [strData_append] at hc
  rcases List.mem_append.mp hc with h | h
  · exact lastComponentChars_no_slash f.data c (splitextRoot_chars (lastComponent f) c h)
  · have hd : (".mov" : String).data = ['.', 'm', 'o', 'v'] := rfl
    rw [hd] at h
    simp only [List.mem_cons, List.not_mem_nil, or_false] at h
    rcases h with rfl | rfl | rfl | rfl <;> decide

/-- Joining a directory with a slash-free final part: the last component
of the joined path is that final part, whatever the directory is. -/
theorem lastComponent_osPathJoin (a b : String)
    (h : ∀ c ∈ b.data, (c != '/') = true) :
    lastComponent (osPathJoin a b) = b := by
  unfold osPathJoin
  by_cases hb : b.data.head? = some '/'
  · exfalso
    cases hbd : b.data with
    | nil =>
      rw [hbd] at hb
      simp at hb
    | cons x xs =>
      rw [hbd] at hb
      simp only [List.head?_cons, Option.some.injEq] at hb
      subst hb
      have hx := h '/' (by rw [hbd]; exact List.mem_cons_self _ _)
      simp at hx
  · rw [if_neg hb]
    by_cases ha : a.data = [] ∨ a.data.getLast? = some '/'
    · rw [if_pos ha]
      unfold lastComponent
      rw [strData_append, lastComponentChars_append a.data b.data h]
      have hnil : lastComponentChars a.data = [] := by
        rcases ha with ha | ha
        · rw [ha]
          rfl
        · unfold lastComponentChars
          have hh : a.data.reverse.head? = some '/' := by
            rw [List.head?_reverse]
            exact ha
          cases har : a.data.reverse with
          | nil => rfl
          | cons x xs =>
            rw [har] at hh
            simp only [List.head?_cons, Option.some.injEq] at hh
            subst hh
            rw [takeWhile_cons_stop _ _ _ (by decide)]
            rfl
      rw [hnil, List.nil_append]
    · rw [if_neg ha]
      unfold lastComponent
      rw [strData_append, strData_append]
      have hsl : ("/" : String).data = ['/'] := rfl
      rw [hsl]
      rw [lastComponentChars_append (a.data ++ ['/']) b.data h]
      have hnil : lastComponentChars (a.data ++ ['/']) = [] := by
        unfold lastComponentChars
        rw [List.reverse_append]
        simp only [List.reverse_cons, List.reverse_nil, List.nil_append, List.singleton_append]
        rw [takeWhile_cons_stop _ _ _ (by decide)]
        rfl
      rw [hnil, List.nil_append]

/-- C8: the derived output path always has the source's file-name stem
plus the fixed .mov extension as its final component, for any output
directory; in particular every case variant of clip's extension yields the
basename clip.mov. -/
theorem outputFile_naming (output_dir file : String) :
    lastComponent (outputFileFor output_dir file)
        = splitextRoot (lastComponent file) ++ ".mov"
    ∧ lastComponent (outputFileFor "out" "/in/clip.MP4") = "clip.mov"
    ∧ lastComponent (outputFileFor "out" "/in/clip.mp4") = "clip.mov"
    ∧ lastComponent (outputFileFor "out" "/in/clip.Mp4") = "clip.mov" := by
  refine ⟨?_, by decide, by decide, by decide⟩
  unfold outputFileFor
  exact lastComponent_osPathJoin output_dir
    (splitextRoot (lastComponent file) ++ ".mov") (movName_no_slash file)

end Mp4Mov
